import Mathlib

/-!
Shallow embedding of the RAG (retrieval-augmented generation) core of the
LingChat repository, from `ling_chat/core/RAG.py` (class `RAGSystem`).

Python dictionaries representing chat messages are embedded as the `PyMsg`
structure with `Option`-typed fields (a `none` field models a missing key or
a `None` value).  The two external collaborators are embedded as function
parameters: `embed` stands for the HTTP call performed inside
`RAGSystem._get_embeddings` (returning `none` on any request failure), and
`queryFn` stands for `chroma_collection.query` (returning the ranked
candidate list: ids/metadatas/distances merged into `Cand` records).
The ChromaDB collection handle is `Option (List ColEntry)`: `none` models an
uninitialised `self.chroma_collection`, and `count()` is the list length.
Embedding vectors are `List Int`; the retrieval logic never inspects vector
components, it only passes them through.
-/

/-- A Python chat-message dict.  `role`, `content`, `sourceFile`
(`_source_file`), `originalIdx` (`_original_idx`) and `timestampStr`
(`_session_timestamp_str`) are `none` when the key is absent or maps to
`None`. -/
structure PyMsg where
  role : Option String
  content : Option String
  sourceFile : Option String
  originalIdx : Option Nat
  timestampStr : Option String
deriving DecidableEq

/-- The configuration fields read by the RAG module via
`getattr(self.config, ..., default)`.  Counts are natural numbers
(`RAG_RETRIEVAL_COUNT`, `RAG_CANDIDATE_MULTIPLIER`, `RAG_CONTEXT_M_BEFORE`,
`RAG_CONTEXT_N_AFTER`); `ragPromptPre`/`ragPromptSuf` are
`RAG_PROMPT_PREFIX`/`RAG_PROMPT_SUFFIX`. -/
structure RAGConfig where
  useRag : Bool
  retrievalCount : Nat
  candidateMultiplier : Nat
  contextBefore : Nat
  contextAfter : Nat
  ragPromptPre : String
  ragPromptSuf : String
deriving DecidableEq

/-- One entry of the per-character ChromaDB collection: id, embedding,
document text and the stored metadata fields (`role`, `source_file`,
`original_idx`). -/
structure ColEntry where
  eid : String
  embedding : List Int
  document : String
  mrole : String
  msourceFile : String
  moriginalIdx : Nat
deriving DecidableEq

/-- One candidate returned by `chroma_collection.query`: the metadata fields
read by `get_relevant_messages` plus the (cosine) distance, which the code
only logs. -/
structure Cand where
  sourceFile : String
  originalIdx : Nat
  dist : Int
deriving DecidableEq

/-- A message the retrieval loop has selected for emission, together with
the `(source_file, j)` position recorded into `used_source_indices` when it
was appended to its context block. -/
structure SelEntry where
  sf : String
  j : Nat
  msg : PyMsg
deriving DecidableEq

/-- One element of the `final_rag_messages` list built by
`get_relevant_messages`: Python builds `{"role": msg['role'], "content":
contextualized_content}`.  `role` stays `Option`-typed because the source
message's `role` key is read unchecked. -/
structure OutMsg where
  role : Option String
  content : String
deriving DecidableEq

/-- `RAGSystem._get_embeddings`: empty input returns an empty result without
a remote call; otherwise the HTTP request (the `embed` parameter) is made
and any failure surfaces as `none`. -/
def getEmbeddings (embed : List String → Option (List (List Int)))
    (texts : List String) : Option (List (List Int)) :=
  if texts.isEmpty then some [] else embed texts

/-- Truthiness of a message's `content` as tested by
`if msg_content and ...` after `msg_obj.get("content")`: the key must be
present, non-`None`, and a non-empty string. -/
def contentTruthy (m : PyMsg) : Bool :=
  match m.content with
  | some c => c != ""
  | none => false

/-- `self.historical_sessions_map.get(source_file)` over the association-list
embedding of the sessions dictionary. -/
def lookupAssoc (m : List (String × List PyMsg)) (k : String) :
    Option (List PyMsg) :=
  match m with
  | [] => none
  | p :: rest => if p.1 = k then some p.2 else lookupAssoc rest k

/-- The window indices iterated by
`for j in range(max(0, original_idx - context_before),
               min(len(msgs), original_idx + context_after + 1))`.
Natural subtraction `anchor - before` is exactly `max(0, anchor - before)`. -/
def windowIdxs (len anchor before after : Nat) : List Nat :=
  List.range' (anchor - before) (min len (anchor + after + 1) - (anchor - before))

/-- Mutable state threaded through the candidate loop of
`get_relevant_messages`: the selected messages (`final_rag_messages`, kept
here as full `SelEntry` records), `used_source_indices`,
`added_message_contents` and `retrieved_blocks_count`. -/
structure RState where
  finalSel : List SelEntry
  usedIdx : List (String × Nat)
  addedContents : List String
  blocks : Nat
deriving DecidableEq

/-- The state at loop entry: all accumulators empty. -/
def initRState : RState := ⟨[], [], [], 0⟩

/-- The inner window scan of `get_relevant_messages`: for each index `j` of
the clamped window, fetch `current_session_messages[j]`, and when its
content is truthy and not yet in `added_message_contents`, append it to the
current `context_block`, record `(source_file, j)` and record the content. -/
def scanWindow (sess : List PyMsg) (sf : String) :
    List Nat → List SelEntry → RState → List SelEntry × RState
  | [], block, st => (block, st)
  | j :: rest, block, st =>
    match sess.get? j with
    | none => scanWindow sess sf rest block st
    | some msgObj =>
      match msgObj.content with
      | none => scanWindow sess sf rest block st
      | some c =>
        if c ≠ "" ∧ c ∉ st.addedContents then
          scanWindow sess sf rest (block ++ [⟨sf, j, msgObj⟩])
            { st with usedIdx := st.usedIdx ++ [(sf, j)],
                      addedContents := st.addedContents ++ [c] }
        else scanWindow sess sf rest block st

/-- Processing of one candidate inside the loop of `get_relevant_messages`:
skip an anchor already in `used_source_indices`; skip a missing or empty
session and an out-of-bounds anchor; otherwise scan the clamped window and,
when the block is non-empty, bump `retrieved_blocks_count` and append the
block to the output. -/
def processCand (cfg : RAGConfig) (smap : List (String × List PyMsg))
    (st : RState) (c : Cand) : RState :=
  if (c.sourceFile, c.originalIdx) ∈ st.usedIdx then st
  else
    match lookupAssoc smap c.sourceFile with
    | none => st
    | some sess =>
      if sess.isEmpty then st
      else if c.originalIdx < sess.length then
        let js := windowIdxs sess.length c.originalIdx cfg.contextBefore cfg.contextAfter
        let r := scanWindow sess c.sourceFile js [] st
        if r.1.isEmpty then r.2
        else { r.2 with finalSel := r.2.finalSel ++ r.1, blocks := r.2.blocks + 1 }
      else st

/-- The candidate loop: `for i in range(len(results['ids'][0]))` with the
`if retrieved_blocks_count >= retrieval_count: break` guard at the top of
every iteration. -/
def retrieveLoop (cfg : RAGConfig) (smap : List (String × List PyMsg))
    (st : RState) : List Cand → RState
  | [] => st
  | c :: rest =>
    if st.blocks ≥ cfg.retrievalCount then st
    else retrieveLoop cfg smap (processCand cfg smap st c) rest

/-- `RAGSystem.get_relevant_messages` up to (and including) the candidate
loop, returning the final loop state.  Early returns (`USE_RAG` off,
uninitialised collection, empty query, empty collection, failed or empty
query embedding) yield `initRState`, whose selection list is empty. -/
def getRelevantEntries (cfg : RAGConfig) (col : Option (List ColEntry))
    (smap : List (String × List PyMsg))
    (embed : List String → Option (List (List Int)))
    (queryFn : List Int → Nat → List Cand) (q : String) : RState :=
  if !cfg.useRag then initRState
  else
    match col with
    | none => initRState
    | some entries =>
      if q = "" ∨ entries.length = 0 then initRState
      else
        match getEmbeddings embed [q] with
        | none => initRState
        | some [] => initRState
        | some (qe :: _) =>
          let n := min (cfg.retrievalCount * cfg.candidateMultiplier) entries.length
          retrieveLoop cfg smap initRState (queryFn qe n)

/-- The projection building one element of `final_rag_messages` from a
selected message: `contextualized_content = "[历史对话片段 - <ts>] " +
msg['content']`, where the timestamp falls back to `"未知时间"` exactly as
`msg.get("_session_timestamp_str", "未知时间")` does.  On the selected
messages reached by the loop, `content` is always `some c`, so `getD ""`
coincides with Python's `msg['content']`. -/
def projectOut (e : SelEntry) : OutMsg :=
  ⟨e.msg.role,
   "[历史对话片段 - " ++ e.msg.timestampStr.getD "未知时间" ++ "] "
     ++ e.msg.content.getD ""⟩

/-- `RAGSystem.get_relevant_messages`: the returned message list. -/
def getRelevantMessages (cfg : RAGConfig) (col : Option (List ColEntry))
    (smap : List (String × List PyMsg))
    (embed : List String → Option (List (List Int)))
    (queryFn : List Int → Nat → List Cand) (q : String) : List OutMsg :=
  (getRelevantEntries cfg col smap embed queryFn q).finalSel.map projectOut

/-- Python `str` whitespace characters relevant to `.strip()` (ASCII range;
the configured prompt strings in question are ordinary text). -/
def pyIsSpace (ch : Char) : Bool :=
  ch = ' ' || ch = '\t' || ch = '\n' || ch = '\r' || ch = '\x0b' || ch = '\x0c'

/-- Truthiness of `s.strip()`: true exactly when some character of `s` is
not whitespace. -/
def stripTruthy (s : String) : Bool := !(s.data.all pyIsSpace)

/-- `RAGSystem.prepare_rag_messages`: guard on `USE_RAG`, retrieve, return
`[]` for empty retrieval, otherwise wrap with the configured prefix/suffix
system messages, each omitted when its `.strip()` is falsy. -/
def prepareRagMessages (cfg : RAGConfig) (col : Option (List ColEntry))
    (smap : List (String × List PyMsg))
    (embed : List String → Option (List (List Int)))
    (queryFn : List Int → Nat → List Cand) (userInput : String) :
    List OutMsg :=
  if !cfg.useRag then []
  else
    let ragCtx := getRelevantMessages cfg col smap embed queryFn userInput
    if ragCtx.isEmpty then []
    else
      (if stripTruthy cfg.ragPromptPre then [⟨some "system", cfg.ragPromptPre⟩] else [])
        ++ ragCtx
        ++ (if stripTruthy cfg.ragPromptSuf then [⟨some "system", cfg.ragPromptSuf⟩] else [])

/-- Python slicing `content[:100]`: the first (at most) 100 code points of
the string. -/
def takeChars (s : String) (n : Nat) : String := ⟨s.data.take n⟩

/-- The key string hashed by `add_messages_to_index`:
`f"{source_file}_{original_idx}_{role}_{content[:100]}"`.  The stored id is
`str(uuid.uuid5(uuid.NAMESPACE_DNS, message_id_str))`, a fixed function of
this key string alone, so id equality questions reduce to key-string
equality. -/
def messageIdStr (sf : String) (idx : Nat) (role : String) (content : String) :
    String :=
  sf ++ "_" ++ toString idx ++ "_" ++ role ++ "_" ++ takeChars content 100

/-- One row prepared for upsert by the filter loop of
`add_messages_to_index`, holding the id key and the slots appended to
`documents` and `metadatas`. -/
structure IndexRow where
  rid : String
  doc : String
  mrole : String
  msourceFile : String
  moriginalIdx : Nat
deriving DecidableEq

/-- The per-message validity filter of `add_messages_to_index`:
`all([content, isinstance(content, str), role, source_file is not None,
original_idx is not None])` — content a non-empty string, role truthy,
source file and index merely present. -/
def validForIndex (m : PyMsg) : Bool :=
  match m.content, m.role, m.sourceFile, m.originalIdx with
  | some c, some r, some _, some _ => c != "" && r != ""
  | _, _, _, _ => false

/-- The row built from one message by `add_messages_to_index`, or `none`
when the message is skipped by the validity filter (`continue`). -/
def toRow (m : PyMsg) : Option IndexRow :=
  match m.content, m.role, m.sourceFile, m.originalIdx with
  | some c, some r, some sf, some idx =>
    if c != "" && r != "" then some ⟨messageIdStr sf idx r c, c, r, sf, idx⟩
    else none
  | _, _, _, _ => none

/-- Idempotent upsert of a single entry into the collection: an existing id
is overwritten in place, a fresh id is appended. -/
def upsertOne (col : List ColEntry) (e : ColEntry) : List ColEntry :=
  if col.any (fun x => x.eid == e.eid) then
    col.map (fun x => if x.eid == e.eid then e else x)
  else col ++ [e]

/-- The batched `chroma_collection.upsert` calls of `add_messages_to_index`
(batch size 500): since upsert is per-id, the final collection state is the
left fold of single-entry upserts over the rows zipped with their
embeddings, independent of the batch boundaries. -/
def upsertAll (col : List ColEntry) (rows : List IndexRow)
    (embs : List (List Int)) : List ColEntry :=
  (rows.zip embs).foldl
    (fun c p => upsertOne c ⟨p.1.rid, p.2, p.1.doc, p.1.mrole, p.1.msourceFile, p.1.moriginalIdx⟩)
    col

/-- `RAGSystem.add_messages_to_index`: guards, the validity filter, a single
embedding call for the whole filtered batch (abort with failure and an
unchanged collection when it fails), then the batched upsert.  The returned
pair is (success flag, collection state after the call). -/
def addMessagesToIndex (cfg : RAGConfig) (col : Option (List ColEntry))
    (embed : List String → Option (List (List Int))) (msgs : List PyMsg) :
    Bool × Option (List ColEntry) :=
  if !cfg.useRag || col.isNone then (false, col)
  else if msgs.isEmpty then (false, col)
  else
    let rows := msgs.filterMap toRow
    if rows.isEmpty then (false, col)
    else
      match getEmbeddings embed (rows.map IndexRow.doc) with
      | none => (false, col)
      | some embs => (true, col.map (fun c => upsertAll c rows embs))

/-- The in-memory state mutated by `add_session_to_history`:
`historical_sessions_map`, `flat_historical_messages` and the vector
collection. -/
structure HistState where
  smap : List (String × List PyMsg)
  flat : List PyMsg
  col : Option (List ColEntry)
deriving DecidableEq

/-- Python dict assignment `historical_sessions_map[filename] = v` on the
association-list embedding: replace the binding when the key exists,
otherwise append it. -/
def updateAssoc (m : List (String × List PyMsg)) (k : String)
    (v : List PyMsg) : List (String × List PyMsg) :=
  if m.any (fun p => p.1 == k) then
    m.map (fun p => if p.1 == k then (k, v) else p)
  else m ++ [(k, v)]

/-- `os.path.basename` for the forward-slash paths the module itself
constructs. -/
def pyBasename (s : String) : String := (s.splitOn "/").getLast!

/-- The metadata-attaching loop of `add_session_to_history`: copy each
message and set `_source_file`, `_original_idx` (its position) and
`_session_timestamp_str`. -/
def withMetadata (fname ts : String) (msgs : List PyMsg) : List PyMsg :=
  msgs.enum.map (fun p =>
    { p.2 with sourceFile := some fname, originalIdx := some p.1,
               timestampStr := some ts })

/-- `RAGSystem.add_session_to_history`.  `parseTime` stands for
`_parse_session_time_from_filename` (filename-pattern parsing feeding only
the display timestamp).  `defaultPath` stands for the value
`get_history_filepath()` would produce (a fresh clock-derived path), used
when the `session_filepath` argument is falsy.  Returns the Python return
value, the updated in-memory state, and the file write performed
(`some (path, contents)`) or `none` when nothing is written. -/
def addSessionToHistory (cfg : RAGConfig)
    (embed : List String → Option (List (List Int)))
    (parseTime : String → String) (st : HistState)
    (sessionMsgs : List PyMsg) (sessionFilepath : Option String)
    (defaultPath : String) :
    Option String × HistState × Option (String × List PyMsg) :=
  if !cfg.useRag then (none, st, none)
  else if sessionMsgs.isEmpty then (none, st, none)
  else
    let filtered := sessionMsgs.filter (fun m => m.role != some "system")
    if filtered.isEmpty then (none, st, none)
    else
      let path :=
        match sessionFilepath with
        | none => defaultPath
        | some p => if p = "" then defaultPath else p
      let fname := pyBasename path
      let ts := parseTime fname
      let msgsMeta := withMetadata fname ts filtered
      (some path,
       { smap := updateAssoc st.smap fname msgsMeta,
         flat := st.flat ++ msgsMeta,
         col := (addMessagesToIndex cfg st.col embed msgsMeta).2 },
       some (path, filtered))

/-- A directory subtree of a character's history directory: the plain files
directly inside it, and its subdirectories in the order the operating
system's directory enumeration (and hence `os.walk`) yields them. -/
inductive DirTree where
  | node : List String → List DirTree → DirTree

/-- Python `str.endswith(suf)`: the code-point sequence of `suf` is a suffix
of that of `s`. -/
def strEndsWith (s suf : String) : Bool :=
  suf.data.length ≤ s.data.length
    && s.data.drop (s.data.length - suf.data.length) == suf.data

/-- Python's string comparison `a <= b`: code-point-lexicographic order on
the character sequences. -/
def charListLe : List Char → List Char → Bool
  | [], _ => true
  | _ :: _, [] => false
  | a :: as, b :: bs =>
    if a.toNat < b.toNat then true
    else if b.toNat < a.toNat then false
    else charListLe as bs

/-- Python string `<=` lifted to `String`. -/
def strLe (a b : String) : Bool := charListLe a.data b.data

/-- `sorted([f for f in files if f.endswith(".json")])` applied to one
directory's file listing: Python's `sorted` on strings is the stable
ascending sort under code-point-lexicographic order. -/
def sortedJsonFiles (files : List String) : List String :=
  List.insertionSort (fun a b => strLe a b = true)
    (files.filter (fun f => strEndsWith f ".json"))

/-- The file-processing order of `load_historical_data` over a worklist of
directory subtrees: `os.walk` is top-down, so a directory's own `.json`
files (sorted) are processed first, then its subtrees in enumeration order,
then the remaining worklist. -/
def walkList : List DirTree → List String
  | [] => []
  | DirTree.node files subs :: rest =>
    sortedJsonFiles files ++ walkList subs ++ walkList rest

/-- The file-processing order of `load_historical_data` starting from the
character's history directory. -/
def walkFiles (t : DirTree) : List String := walkList [t]

/-! ### Helper lemmas about the retrieval loop -/

theorem scanWindow_finalSel (sess : List PyMsg) (sf : String) :
    ∀ (js : List Nat) (block : List SelEntry) (st : RState),
      (scanWindow sess sf js block st).2.finalSel = st.finalSel
      ∧ (scanWindow sess sf js block st).2.blocks = st.blocks := by
  intro js
  induction js with
  | nil => intro block st; exact ⟨rfl, rfl⟩
  | cons j rest ih =>
    intro block st
    rcases hg : sess.get? j with _ | msgObj
    · simp only [scanWindow, hg]
      exact ih block st
    · rcases hcont : msgObj.content with _ | c
      · simp only [scanWindow, hg, hcont]
        exact ih block st
      · by_cases hc : c ≠ "" ∧ c ∉ st.addedContents
        · simp only [scanWindow, hg, hcont, if_pos hc]
          exact ih _ _
        · simp only [scanWindow, hg, hcont, if_neg hc]
          exact ih block st

theorem processCand_blocks_le (cfg : RAGConfig) (smap : List (String × List PyMsg))
    (st : RState) (c : Cand) :
    (processCand cfg smap st c).blocks ≤ st.blocks + 1 := by
  unfold processCand
  split
  · exact Nat.le_succ _
  · split
    · exact Nat.le_succ _
    · rename_i sess _
      split
      · exact Nat.le_succ _
      · split
        · have h := (scanWindow_finalSel sess c.sourceFile
            (windowIdxs sess.length c.originalIdx cfg.contextBefore cfg.contextAfter) [] st).2
          dsimp only
          split
          · omega
          · dsimp only
            omega
        · exact Nat.le_succ _

theorem retrieveLoop_blocks_le (cfg : RAGConfig) (smap : List (String × List PyMsg)) :
    ∀ (cands : List Cand) (st : RState), st.blocks ≤ cfg.retrievalCount →
      (retrieveLoop cfg smap st cands).blocks ≤ cfg.retrievalCount := by
  intro cands
  induction cands with
  | nil => intro st h; exact h
  | cons c rest ih =>
    intro st h
    unfold retrieveLoop
    by_cases hb : st.blocks ≥ cfg.retrievalCount
    · rw [if_pos hb]
      exact h
    · rw [if_neg hb]
      apply ih
      have := processCand_blocks_le cfg smap st c
      omega

theorem getRelevantEntries_cases (cfg : RAGConfig) (col : Option (List ColEntry))
    (smap : List (String × List PyMsg))
    (embed : List String → Option (List (List Int)))
    (queryFn : List Int → Nat → List Cand) (q : String) :
    getRelevantEntries cfg col smap embed queryFn q = initRState
    ∨ ∃ cands, getRelevantEntries cfg col smap embed queryFn q
        = retrieveLoop cfg smap initRState cands := by
  unfold getRelevantEntries
  by_cases hu : !cfg.useRag
  · rw [if_pos hu]
    exact Or.inl rfl
  · rw [if_neg hu]
    cases col with
    | none => exact Or.inl rfl
    | some entries =>
      dsimp only
      by_cases hq : q = "" ∨ entries.length = 0
      · rw [if_pos hq]
        exact Or.inl rfl
      · rw [if_neg hq]
        rcases hg : getEmbeddings embed [q] with _ | (_ | ⟨qe, rest⟩)
        · exact Or.inl rfl
        · exact Or.inl rfl
        · exact Or.inr ⟨_, rfl⟩

/-- Configuration used by concrete witnesses: RAG enabled, the default
counts (3/3/2/2), a non-blank prefix prompt and an empty suffix prompt. -/
def cfgEx : RAGConfig := ⟨true, 3, 3, 2, 2, "ctx:", ""⟩

/-- Claim C5: for every query and every configuration, the number of context
blocks produced by one call to `get_relevant_messages` (the
`retrieved_blocks_count` the loop maintains) never exceeds
`retrieval_count`: the loop stops once that many windows each yielding at
least one non-duplicate message have been accepted, or candidates are
exhausted. -/
theorem c5_block_cap (cfg : RAGConfig) (col : Option (List ColEntry))
    (smap : List (String × List PyMsg))
    (embed : List String → Option (List (List Int)))
    (queryFn : List Int → Nat → List Cand) (q : String) :
    (getRelevantEntries cfg col smap embed queryFn q).blocks ≤ cfg.retrievalCount := by
  rcases getRelevantEntries_cases cfg col smap embed queryFn q with h | ⟨cands, h⟩
  · rw [h]
    exact Nat.zero_le _
  · rw [h]
    exact retrieveLoop_blocks_le cfg smap cands initRState (Nat.zero_le _)

/-- Claim C6: for every accepted candidate anchored at `original_index` in a
session of length `L`, the context window is clamped to the session bounds:
it is exactly the run of indices from `max(0, original_index −
context_before)` through `min(L − 1, original_index + context_after)`, and
no out-of-range index is ever accessed; with natural subtraction,
`idx - b` is `max(0, idx − b)`, so an anchor at index 0 with
`context_before = 2` starts at index 0. -/
theorem c6_window_clamped (L idx b a : Nat) (h : idx < L) :
    windowIdxs L idx b a
        = List.range' (idx - b) (min (L - 1) (idx + a) + 1 - (idx - b))
    ∧ (∀ j ∈ windowIdxs L idx b a, j < L)
    ∧ (∀ j, j ∈ windowIdxs L idx b a ↔ idx - b ≤ j ∧ j ≤ min (L - 1) (idx + a)) := by
  refine ⟨?_, ?_, ?_⟩
  · unfold windowIdxs
    congr 1
    omega
  · intro j hj
    unfold windowIdxs at hj
    rw [List.mem_range'_1] at hj
    omega
  · intro j
    unfold windowIdxs
    rw [List.mem_range'_1]
    omega

/-- Witness for C6 at the claim's own example: a session of length 3, an
anchor at index 0, `context_before = context_after = 2`: the window starts
at index 0 and stays in bounds. -/
theorem c6_witness :
    0 < 3 ∧ (windowIdxs 3 0 2 2
        = List.range' (0 - 2) (min (3 - 1) (0 + 2) + 1 - (0 - 2))
      ∧ (∀ j ∈ windowIdxs 3 0 2 2, j < 3)
      ∧ (∀ j, j ∈ windowIdxs 3 0 2 2 ↔ 0 - 2 ≤ j ∧ j ≤ min (3 - 1) (0 + 2))) :=
  ⟨by decide, c6_window_clamped 3 0 2 2 (by decide)⟩

/-- Claim C1: retrieval degrades to an empty result without touching state:
`get_relevant_messages` returns `[]` when the query is empty, when the
collection count is 0, and when the query-embedding call fails (returns
`None` or an empty list).  The embedding is a pure function of the passed
state, so no state component is modified. -/
theorem c1_empty_state_safety (cfg : RAGConfig) (col : Option (List ColEntry))
    (smap : List (String × List PyMsg))
    (embed : List String → Option (List (List Int)))
    (queryFn : List Int → Nat → List Cand) (q : String)
    (h : q = "" ∨ (∃ entries, col = some entries ∧ entries.length = 0)
        ∨ embed [q] = none ∨ embed [q] = some []) :
    getRelevantMessages cfg col smap embed queryFn q = [] := by
  suffices hs : getRelevantEntries cfg col smap embed queryFn q = initRState by
    rw [getRelevantMessages, hs]
    rfl
  unfold getRelevantEntries
  by_cases hu : !cfg.useRag
  · rw [if_pos hu]
  · rw [if_neg hu]
    cases col with
    | none => rfl
    | some entries =>
      dsimp only
      by_cases hq : q = "" ∨ entries.length = 0
      · rw [if_pos hq]
      · rw [if_neg hq]
        have hemb : getEmbeddings embed [q] = embed [q] := by
          simp [getEmbeddings]
        rcases h with h | ⟨e, he, hlen⟩ | h | h
        · exact absurd (Or.inl h) hq
        · injection he with he'
          exact absurd (Or.inr (he' ▸ hlen)) hq
        · rw [hemb, h]
        · rw [hemb, h]

/-- Witness for C1: the empty query against an empty concrete collection
returns the empty list. -/
theorem c1_witness :
    (("" : String) = ""
        ∨ (∃ entries, (some [] : Option (List ColEntry)) = some entries ∧ entries.length = 0)
        ∨ (fun _ : List String => (none : Option (List (List Int)))) [""] = none
        ∨ (fun _ : List String => (none : Option (List (List Int)))) [""] = some [])
    ∧ getRelevantMessages cfgEx (some []) [] (fun _ => none) (fun _ _ => []) "" = [] :=
  ⟨Or.inl rfl,
   c1_empty_state_safety cfgEx (some []) [] (fun _ => none) (fun _ _ => []) "" (Or.inl rfl)⟩

theorem strAppend_left_cancel (s x y : String) (h : s ++ x = s ++ y) : x = y := by
  apply String.ext
  have hd := congrArg String.data h
  rw [String.data_append, String.data_append] at hd
  exact List.append_cancel_left hd

/-- Claim C3 counterexample: two messages that differ in source file, index
and role produce the same underscore-joined key string (the join is
ambiguous), hence the same uuid5-derived ID, refuting the injectivity half
of the claim. -/
theorem c3_counterexample :
    messageIdStr "a_1" 2 "user" "x" = messageIdStr "a" 1 "2_user" "x"
    ∧ ("a_1", (2 : Nat), "user", "x")
        ≠ (("a", 1, "2_user", "x") : String × Nat × String × String) := by
  constructor
  · decide
  · decide

/-- Claim C3 (amended): the ID is a deterministic function of
`(source_file, original_index, role, content[:100])` — agreeing messages
always get the same key string and hence the same uuid5 ID — and with the
other three fields fixed, distinct content prefixes give distinct key
strings; but messages differing in the other fields can collide (see the
counterexample), because the underscore-joined key string is ambiguous. -/
theorem c3_id_deterministic (sf : String) (idx : Nat) (role : String)
    (c1 c2 d1 d2 : String)
    (h : takeChars c1 100 = takeChars c2 100)
    (hd : takeChars d1 100 ≠ takeChars d2 100) :
    messageIdStr sf idx role c1 = messageIdStr sf idx role c2
    ∧ messageIdStr sf idx role d1 ≠ messageIdStr sf idx role d2 := by
  constructor
  · unfold messageIdStr
    rw [h]
  · intro he
    apply hd
    unfold messageIdStr at he
    exact strAppend_left_cancel _ _ _ he

/-- Witness for C3 at concrete inputs: identical fields give identical IDs,
and with the other fields fixed, distinct prefixes give distinct IDs. -/
theorem c3_witness :
    takeChars "alpha" 100 = takeChars "alpha" 100
    ∧ takeChars "x" 100 ≠ takeChars "y" 100
    ∧ (messageIdStr "f.json" 0 "user" "alpha" = messageIdStr "f.json" 0 "user" "alpha"
       ∧ messageIdStr "f.json" 0 "user" "x" ≠ messageIdStr "f.json" 0 "user" "y") :=
  ⟨rfl, by decide,
   c3_id_deterministic "f.json" 0 "user" "alpha" "alpha" "x" "y" rfl (by decide)⟩

theorem charListLe_total : ∀ (a b : List Char),
    charListLe a b = true ∨ charListLe b a = true := by
  intro a
  induction a with
  | nil => intro b; left; rfl
  | cons x xs ih =>
    intro b
    cases b with
    | nil => right; rfl
    | cons y ys =>
      by_cases h1 : x.toNat < y.toNat
      · left
        simp [charListLe, h1]
      · by_cases h2 : y.toNat < x.toNat
        · right
          simp [charListLe, h2]
        · rcases ih ys with h | h
          · left
            simp [charListLe, h1, h2, h]
          · right
            simp [charListLe, h1, h2, h]

theorem charListLe_trans : ∀ (a b c : List Char),
    charListLe a b = true → charListLe b c = true → charListLe a c = true := by
  intro a
  induction a with
  | nil => intro b c _ _; rfl
  | cons x xs ih =>
    intro b c hab hbc
    cases b with
    | nil => simp [charListLe] at hab
    | cons y ys =>
      cases c with
      | nil => simp [charListLe] at hbc
      | cons z zs =>
        simp only [charListLe] at hab hbc ⊢
        by_cases hxy : x.toNat < y.toNat
        · by_cases hyz : y.toNat < z.toNat
          · have hxz : x.toNat < z.toNat := Nat.lt_trans hxy hyz
            simp [hxz]
          · by_cases hzy : z.toNat < y.toNat
            · rw [if_neg hyz, if_pos hzy] at hbc
              exact absurd hbc (by simp)
            · have hxz : x.toNat < z.toNat := by omega
              simp [hxz]
        · by_cases hyx : y.toNat < x.toNat
          · rw [if_neg hxy, if_pos hyx] at hab
            exact absurd hab (by simp)
          · by_cases hyz : y.toNat < z.toNat
            · have hxz : x.toNat < z.toNat := by omega
              simp [hxz]
            · by_cases hzy : z.toNat < y.toNat
              · rw [if_neg hyz, if_pos hzy] at hbc
                exact absurd hbc (by simp)
              · have hxz : ¬ x.toNat < z.toNat := by omega
                have hzx : ¬ z.toNat < x.toNat := by omega
                rw [if_neg hxy, if_neg hyx] at hab
                rw [if_neg hyz, if_neg hzy] at hbc
                rw [if_neg hxz, if_neg hzx]
                exact ih ys zs hab hbc

instance : IsTotal String (fun a b => strLe a b = true) :=
  ⟨fun a b => charListLe_total a.data b.data⟩

instance : IsTrans String (fun a b => strLe a b = true) :=
  ⟨fun a b c hab hbc => charListLe_trans a.data b.data c.data hab hbc⟩

/-- Claim C8 counterexample: with nested subdirectories, the processing
order follows the filesystem's directory enumeration order, not the
lexicographic order of file names — two trees holding the same file set but
enumerated in different orders are processed in different (and non-sorted)
orders. -/
theorem c8_counterexample :
    walkFiles (DirTree.node [] [DirTree.node ["z.json"] [], DirTree.node ["a.json"] []])
      = ["z.json", "a.json"]
    ∧ walkFiles (DirTree.node [] [DirTree.node ["a.json"] [], DirTree.node ["z.json"] []])
      = ["a.json", "z.json"]
    ∧ strLe "z.json" "a.json" = false := by
  refine ⟨?_, ?_, by decide⟩
  · simp only [walkFiles, walkList]
    decide
  · simp only [walkFiles, walkList]
    decide

/-- Claim C8 (amended): within each single directory the `.json` files are
processed in lexicographic (code-point) filename order — in particular, for
a flat history directory the whole enumeration is lexicographically sorted
and deterministic — but across nested subdirectories the order follows
`os.walk`'s directory enumeration order and need not be globally
lexicographic or stable across runs (see the counterexample). -/
theorem c8_per_directory_sorted (files : List String) (subs : List DirTree) :
    walkFiles (DirTree.node files []) = sortedJsonFiles files
    ∧ List.Sorted (fun a b => strLe a b = true) (walkFiles (DirTree.node files []))
    ∧ walkFiles (DirTree.node files subs) = sortedJsonFiles files ++ walkList subs := by
  have h1 : walkFiles (DirTree.node files []) = sortedJsonFiles files := by
    simp [walkFiles, walkList]
  refine ⟨h1, ?_, ?_⟩
  · rw [h1]
    exact List.sorted_insertionSort _ _
  · simp [walkFiles, walkList]

/-- Claim C7: the assembler returns the empty list whenever retrieval is
empty (prefix/suffix attach only to non-empty retrieval); and for non-empty
retrieval, a suffix whose `.strip()` is falsy is omitted entirely, so the
output is exactly the optional prefix system message followed by the
retrieved blocks, with no trailing system message. -/
theorem c7_assembler (cfg : RAGConfig) (col : Option (List ColEntry))
    (smap : List (String × List PyMsg))
    (embed : List String → Option (List (List Int)))
    (queryFn : List Int → Nat → List Cand) (userInput : String) :
    (getRelevantMessages cfg col smap embed queryFn userInput = [] →
        prepareRagMessages cfg col smap embed queryFn userInput = [])
    ∧ (getRelevantMessages cfg col smap embed queryFn userInput ≠ [] →
        stripTruthy cfg.ragPromptSuf = false →
        prepareRagMessages cfg col smap embed queryFn userInput
          = (if stripTruthy cfg.ragPromptPre then
               [⟨some "system", cfg.ragPromptPre⟩] else [])
            ++ getRelevantMessages cfg col smap embed queryFn userInput) := by
  constructor
  · intro h
    unfold prepareRagMessages
    by_cases hu : !cfg.useRag
    · rw [if_pos hu]
    · rw [if_neg hu]
      rw [h]
      rfl
  · intro h hsuf
    unfold prepareRagMessages
    by_cases hu : !cfg.useRag
    · exfalso
      apply h
      rw [getRelevantMessages]
      unfold getRelevantEntries
      rw [if_pos hu]
      rfl
    · rw [if_neg hu]
      have hne : (getRelevantMessages cfg col smap embed queryFn userInput).isEmpty
          = false := by
        cases hgl : getRelevantMessages cfg col smap embed queryFn userInput with
        | nil => exact absurd hgl h
        | cons a l => rfl
      simp only [hne, Bool.false_eq_true, if_false, hsuf, List.append_nil]

/-- Collection used by concrete witnesses: one indexed entry. -/
def colEx : List ColEntry := [⟨"id1", [1], "hello", "user", "f.json", 0⟩]

/-- Sessions map used by concrete witnesses: one single-message session. -/
def smapEx : List (String × List PyMsg) :=
  [("f.json", [⟨some "user", some "hello", some "f.json", some 0, some "t"⟩])]

/-- Embedding stub used by concrete witnesses: always succeeds with one
vector. -/
def embedEx : List String → Option (List (List Int)) := fun _ => some [[1]]

/-- Query stub used by concrete witnesses: always returns the single indexed
candidate. -/
def queryEx : List Int → Nat → List Cand := fun _ _ => [⟨"f.json", 0, 0⟩]

/-- Witness for C7: a non-empty retrieval with the empty suffix yields
exactly the prefix system message followed by the retrieved block. -/
theorem c7_witness :
    getRelevantMessages cfgEx (some colEx) smapEx embedEx queryEx "hi" ≠ []
    ∧ stripTruthy cfgEx.ragPromptSuf = false
    ∧ prepareRagMessages cfgEx (some colEx) smapEx embedEx queryEx "hi"
        = (if stripTruthy cfgEx.ragPromptPre then
             [⟨some "system", cfgEx.ragPromptPre⟩] else [])
          ++ getRelevantMessages cfgEx (some colEx) smapEx embedEx queryEx "hi" :=
  ⟨by decide, by decide,
   (c7_assembler cfgEx (some colEx) smapEx embedEx queryEx "hi").2 (by decide) (by decide)⟩

/-- Well-formedness of one selected entry with respect to the
`added_message_contents` set: its content is a non-empty string that has
been recorded in the set. -/
def entryOk (added : List String) (e : SelEntry) : Prop :=
  ∃ c, e.msg.content = some c ∧ c ≠ "" ∧ c ∈ added

/-- Provenance of one selected entry: it is the message stored at position
`j` of the session the map holds for its source file. -/
def entryProv (smap : List (String × List PyMsg)) (e : SelEntry) : Prop :=
  ∃ sess, lookupAssoc smap e.sf = some sess ∧ sess.get? e.j = some e.msg

/-- Invariant of the selected-messages list: every entry is well formed,
the underlying contents are pairwise distinct, and every entry has
provenance in the sessions map. -/
def selOk (smap : List (String × List PyMsg)) (sel : List SelEntry)
    (added : List String) : Prop :=
  (∀ e ∈ sel, entryOk added e)
  ∧ (sel.map (fun e => e.msg.content)).Nodup
  ∧ (∀ e ∈ sel, entryProv smap e)

/-- Invariant of a loop state. -/
def StInv (smap : List (String × List PyMsg)) (st : RState) : Prop :=
  selOk smap st.finalSel st.addedContents

theorem selOk_extend (smap : List (String × List PyMsg)) (sel : List SelEntry)
    (added : List String) (e : SelEntry) (c : String)
    (h : selOk smap sel added) (hc : e.msg.content = some c) (hne : c ≠ "")
    (hnotin : c ∉ added) (hprov : entryProv smap e) :
    selOk smap (sel ++ [e]) (added ++ [c]) := by
  obtain ⟨hok, hnd, hpr⟩ := h
  refine ⟨?_, ?_, ?_⟩
  · intro x hx
    rcases List.mem_append.mp hx with hx | hx
    · obtain ⟨cx, hcx, hnex, hmx⟩ := hok x hx
      exact ⟨cx, hcx, hnex, List.mem_append_left _ hmx⟩
    · rw [List.mem_singleton.mp hx]
      exact ⟨c, hc, hne, List.mem_append_right _ (List.mem_singleton.mpr rfl)⟩
  · rw [List.map_append]
    rw [List.nodup_append]
    refine ⟨hnd, List.nodup_singleton _, ?_⟩
    simp only [List.map_cons, List.map_nil]
    intro a ha hb
    rw [List.mem_singleton.mp hb] at ha
    obtain ⟨x, hx, hcx⟩ := List.mem_map.mp ha
    obtain ⟨cx, hcx', hnex, hmx⟩ := hok x hx
    rw [hcx'] at hcx
    rw [hc] at hcx
    injection hcx with hcc
    exact hnotin (hcc ▸ hmx)
  · intro x hx
    rcases List.mem_append.mp hx with hx | hx
    · exact hpr x hx
    · rw [List.mem_singleton.mp hx]
      exact hprov

theorem scanWindow_inv (smap : List (String × List PyMsg)) (sess : List PyMsg)
    (sf : String) (hsess : lookupAssoc smap sf = some sess) :
    ∀ (js : List Nat) (block : List SelEntry) (st : RState),
      selOk smap (st.finalSel ++ block) st.addedContents →
      selOk smap (st.finalSel ++ (scanWindow sess sf js block st).1)
        (scanWindow sess sf js block st).2.addedContents := by
  intro js
  induction js with
  | nil => intro block st h; exact h
  | cons j rest ih =>
    intro block st h
    rcases hg : sess.get? j with _ | msgObj
    · simp only [scanWindow, hg]
      exact ih block st h
    · rcases hcont : msgObj.content with _ | c
      · simp only [scanWindow, hg, hcont]
        exact ih block st h
      · by_cases hc : c ≠ "" ∧ c ∉ st.addedContents
        · simp only [scanWindow, hg, hcont, if_pos hc]
          have hnext := ih (block ++ [⟨sf, j, msgObj⟩])
            { st with usedIdx := st.usedIdx ++ [(sf, j)],
                      addedContents := st.addedContents ++ [c] }
          apply hnext
          have := selOk_extend smap (st.finalSel ++ block) st.addedContents
            ⟨sf, j, msgObj⟩ c h hcont hc.1 hc.2 ⟨sess, hsess, hg⟩
          simpa [List.append_assoc] using this
        · simp only [scanWindow, hg, hcont, if_neg hc]
          exact ih block st h

theorem processCand_inv (cfg : RAGConfig) (smap : List (String × List PyMsg))
    (st : RState) (c : Cand) (h : StInv smap st) :
    StInv smap (processCand cfg smap st c) := by
  unfold processCand
  by_cases hused : (c.sourceFile, c.originalIdx) ∈ st.usedIdx
  · rw [if_pos hused]
    exact h
  · rw [if_neg hused]
    rcases hl : lookupAssoc smap c.sourceFile with _ | sess
    · exact h
    · dsimp only
      by_cases hemp : sess.isEmpty
      · rw [if_pos hemp]
        exact h
      · rw [if_neg hemp]
        by_cases hlt : c.originalIdx < sess.length
        · rw [if_pos hlt]
          have hscan := scanWindow_inv smap sess c.sourceFile hl
            (windowIdxs sess.length c.originalIdx cfg.contextBefore cfg.contextAfter)
            [] st (by simpa using h)
          have hfs := scanWindow_finalSel sess c.sourceFile
            (windowIdxs sess.length c.originalIdx cfg.contextBefore cfg.contextAfter)
            [] st
          by_cases hbe : (scanWindow sess c.sourceFile
              (windowIdxs sess.length c.originalIdx cfg.contextBefore cfg.contextAfter)
              [] st).1.isEmpty
          · rw [if_pos hbe]
            have hnil := List.isEmpty_iff.mp hbe
            unfold StInv
            rw [hfs.1]
            rw [hnil] at hscan
            simpa using hscan
          · rw [if_neg hbe]
            unfold StInv
            dsimp only
            rw [hfs.1]
            exact hscan
        · rw [if_neg hlt]
          exact h

theorem retrieveLoop_inv (cfg : RAGConfig) (smap : List (String × List PyMsg)) :
    ∀ (cands : List Cand) (st : RState), StInv smap st →
      StInv smap (retrieveLoop cfg smap st cands) := by
  intro cands
  induction cands with
  | nil => intro st h; exact h
  | cons c rest ih =>
    intro st h
    unfold retrieveLoop
    by_cases hb : st.blocks ≥ cfg.retrievalCount
    · rw [if_pos hb]
      exact h
    · rw [if_neg hb]
      exact ih _ (processCand_inv cfg smap st c h)

theorem getRelevantEntries_inv (cfg : RAGConfig) (col : Option (List ColEntry))
    (smap : List (String × List PyMsg))
    (embed : List String → Option (List (List Int)))
    (queryFn : List Int → Nat → List Cand) (q : String) :
    StInv smap (getRelevantEntries cfg col smap embed queryFn q) := by
  have hinit : StInv smap initRState := by
    refine ⟨?_, ?_, ?_⟩ <;> simp [initRState]
  rcases getRelevantEntries_cases cfg col smap embed queryFn q with h | ⟨cands, h⟩
  · rw [h]
    exact hinit
  · rw [h]
    exact retrieveLoop_inv cfg smap cands initRState hinit

/-- Claim C2: in any retrieval, no two selected messages originate from the
same `(source_file, original_index)` position and no two have identical
underlying content strings (content-level dedup across blocks and
sessions), and the returned list of `get_relevant_messages` is exactly the
projection of those selected messages. -/
theorem c2_dedup_invariant (cfg : RAGConfig) (col : Option (List ColEntry))
    (smap : List (String × List PyMsg))
    (embed : List String → Option (List (List Int)))
    (queryFn : List Int → Nat → List Cand) (q : String) :
    ((getRelevantEntries cfg col smap embed queryFn q).finalSel).Pairwise
      (fun a b => (a.sf, a.j) ≠ (b.sf, b.j) ∧ a.msg.content ≠ b.msg.content)
    ∧ getRelevantMessages cfg col smap embed queryFn q
        = ((getRelevantEntries cfg col smap embed queryFn q).finalSel).map projectOut := by
  obtain ⟨hok, hnd, hpr⟩ := getRelevantEntries_inv cfg col smap embed queryFn q
  refine ⟨?_, rfl⟩
  have hpc : ((getRelevantEntries cfg col smap embed queryFn q).finalSel).Pairwise
      (fun a b => a.msg.content ≠ b.msg.content) := (List.pairwise_map).mp hnd
  apply List.Pairwise.imp_of_mem ?_ hpc
  intro a b ha hb hcne
  refine ⟨?_, hcne⟩
  intro hpos
  obtain ⟨sa, hla, hga⟩ := hpr a ha
  obtain ⟨sb, hlb, hgb⟩ := hpr b hb
  have hsf : a.sf = b.sf := (Prod.mk.injEq _ _ _ _).mp hpos |>.1
  have hj : a.j = b.j := (Prod.mk.injEq _ _ _ _).mp hpos |>.2
  rw [← hsf] at hlb
  rw [hla] at hlb
  injection hlb with hss
  rw [← hss, ← hj] at hgb
  rw [hga] at hgb
  injection hgb with hmm
  exact hcne (congrArg PyMsg.content hmm)

/-- The messages the window scan of `get_relevant_messages` iterates for a
candidate: the session the map holds for its source file (empty when
absent) restricted to the clamped window indices around the anchor. -/
def windowMsgs (cfg : RAGConfig) (smap : List (String × List PyMsg))
    (c : Cand) : List PyMsg :=
  (windowIdxs ((lookupAssoc smap c.sourceFile).getD []).length c.originalIdx
      cfg.contextBefore cfg.contextAfter).filterMap
    (fun j => ((lookupAssoc smap c.sourceFile).getD []).get? j)

theorem scanWindow_noop (sess : List PyMsg) (sf : String) :
    ∀ (js : List Nat) (block : List SelEntry) (st : RState),
      (∀ j ∈ js, ∀ m, sess.get? j = some m → contentTruthy m = false) →
      scanWindow sess sf js block st = (block, st) := by
  intro js
  induction js with
  | nil => intro block st _; rfl
  | cons j rest ih =>
    intro block st hall
    have hrest : ∀ j' ∈ rest, ∀ m, sess.get? j' = some m → contentTruthy m = false :=
      fun j' hj' => hall j' (List.mem_cons_of_mem _ hj')
    rcases hg : sess.get? j with _ | msgObj
    · simp only [scanWindow, hg]
      exact ih block st hrest
    · have hct := hall j (List.mem_cons_self _ _) msgObj hg
      rcases hcont : msgObj.content with _ | c
      · simp only [scanWindow, hg, hcont]
        exact ih block st hrest
      · unfold contentTruthy at hct
        rw [hcont] at hct
        have hceq : c = "" := by simpa using hct
        have hcond : ¬(c ≠ "" ∧ c ∉ st.addedContents) := fun hx => hx.1 hceq
        simp only [scanWindow, hg, hcont, if_neg hcond]
        exact ih block st hrest

theorem processCand_noop (cfg : RAGConfig) (smap : List (String × List PyMsg))
    (st : RState) (c : Cand)
    (hwin : ∀ m ∈ windowMsgs cfg smap c, contentTruthy m = false) :
    processCand cfg smap st c = st := by
  unfold processCand
  by_cases hused : (c.sourceFile, c.originalIdx) ∈ st.usedIdx
  · rw [if_pos hused]
  · rw [if_neg hused]
    rcases hl : lookupAssoc smap c.sourceFile with _ | sess
    · rfl
    · dsimp only
      by_cases hemp : sess.isEmpty
      · rw [if_pos hemp]
      · rw [if_neg hemp]
        by_cases hlt : c.originalIdx < sess.length
        · rw [if_pos hlt]
          have hwin' : ∀ j ∈ windowIdxs sess.length c.originalIdx
              cfg.contextBefore cfg.contextAfter,
              ∀ m, sess.get? j = some m → contentTruthy m = false := by
            intro j hj m hm
            apply hwin
            unfold windowMsgs
            rw [hl]
            simp only [Option.getD_some]
            exact List.mem_filterMap.mpr ⟨j, hj, hm⟩
          have hsw := scanWindow_noop sess c.sourceFile
            (windowIdxs sess.length c.originalIdx cfg.contextBefore cfg.contextAfter)
            [] st hwin'
          rw [hsw]
          rfl
        · rw [if_neg hlt]

/-- Claim C9: every message selected by `get_relevant_messages` has truthy
content (present, non-`None`, non-empty — other messages are silently
dropped from the block on expansion), and a candidate whose entire clamped
context window holds no truthy content contributes no block and leaves the
loop state — including `retrieved_blocks_count` — unchanged, even when the
rest of its session does contain non-empty messages. -/
theorem c9_nonempty_content (cfg : RAGConfig) (col : Option (List ColEntry))
    (smap : List (String × List PyMsg))
    (embed : List String → Option (List (List Int)))
    (queryFn : List Int → Nat → List Cand) (q : String) (st : RState) (c : Cand)
    (hwin : ∀ m ∈ windowMsgs cfg smap c, contentTruthy m = false) :
    (∀ e ∈ (getRelevantEntries cfg col smap embed queryFn q).finalSel,
        contentTruthy e.msg = true)
    ∧ processCand cfg smap st c = st := by
  constructor
  · intro e he
    obtain ⟨hok, _, _⟩ := getRelevantEntries_inv cfg col smap embed queryFn q
    obtain ⟨cx, hcx, hnex, _⟩ := hok e he
    unfold contentTruthy
    rw [hcx]
    exact bne_iff_ne.mpr hnex
  · exact processCand_noop cfg smap st c hwin

/-- Sessions map used by the C9 witness: one four-message session whose
first three contents are empty strings and whose last is non-empty, so the
anchor-0 window (before = after = 2: indices 0..2) is entirely empty even
though the session itself is not. -/
def smapWinEx : List (String × List PyMsg) :=
  [("g.json",
    [⟨some "user", some "", some "g.json", some 0, some "t"⟩,
     ⟨some "assistant", some "", some "g.json", some 1, some "t"⟩,
     ⟨some "user", some "", some "g.json", some 2, some "t"⟩,
     ⟨some "assistant", some "hi", some "g.json", some 3, some "t"⟩])]

/-- Candidate used by the C9 witness: anchored at index 0 of `smapWinEx`,
whose clamped window 0..2 holds only empty contents. -/
def candEx : Cand := ⟨"g.json", 0, 0⟩

/-- Witness for C9: retrieving with an anchor at index 3 of the same
session emits only the one truthy-content message (the empty-content window
neighbours are dropped), and processing the anchor-0 candidate — whose
whole window is empty-content although its session is not — leaves the
initial loop state, block count included, unchanged. -/
theorem c9_witness :
    (∀ m ∈ windowMsgs cfgEx smapWinEx candEx, contentTruthy m = false)
    ∧ ((∀ e ∈ (getRelevantEntries cfgEx (some colEx) smapWinEx embedEx
          (fun _ _ => [⟨"g.json", 3, 0⟩]) "hi").finalSel,
          contentTruthy e.msg = true)
       ∧ processCand cfgEx smapWinEx initRState candEx = initRState) :=
  ⟨by decide,
   c9_nonempty_content cfgEx (some colEx) smapWinEx embedEx
     (fun _ _ => [⟨"g.json", 3, 0⟩]) "hi" initRState candEx (by decide)⟩

theorem toRow_eq_none (m : PyMsg) (h : validForIndex m = false) : toRow m = none := by
  rcases hc : m.content with _ | c <;>
    rcases hr : m.role with _ | r <;>
    rcases hsf : m.sourceFile with _ | sf <;>
    rcases hi : m.originalIdx with _ | i <;>
    simp_all [toRow, validForIndex]

theorem filterMap_toRow_filter (msgs : List PyMsg) :
    (msgs.filter validForIndex).filterMap toRow = msgs.filterMap toRow := by
  induction msgs with
  | nil => rfl
  | cons m rest ih =>
    by_cases hv : validForIndex m
    · rw [List.filter_cons_of_pos hv, List.filterMap_cons, List.filterMap_cons, ih]
    · rw [List.filter_cons_of_neg hv, List.filterMap_cons,
        toRow_eq_none m (Bool.not_eq_true _ ▸ hv), ih]

/-- Claim C4: indexing is all-or-nothing with respect to the embedding
call: embeddings are requested for the whole filtered batch in one call
(the match scrutinee below), and if that call fails the operation returns
failure with the vector store unchanged — no partial upsert; and messages
rejected by the validity filter (missing non-empty string content or a
role) are skipped without affecting the outcome for the rest of the
batch. -/
theorem c4_all_or_nothing (cfg : RAGConfig) (col : Option (List ColEntry))
    (embed : List String → Option (List (List Int))) (msgs : List PyMsg) :
    (getEmbeddings embed ((msgs.filterMap toRow).map IndexRow.doc) = none →
        addMessagesToIndex cfg col embed msgs = (false, col))
    ∧ addMessagesToIndex cfg col embed msgs
        = addMessagesToIndex cfg col embed (msgs.filter validForIndex) := by
  constructor
  · intro h
    unfold addMessagesToIndex
    by_cases hg : !cfg.useRag || col.isNone
    · rw [if_pos hg]
    · rw [if_neg hg]
      by_cases hm : msgs.isEmpty
      · rw [if_pos hm]
      · rw [if_neg hm]
        dsimp only
        by_cases hr : (msgs.filterMap toRow).isEmpty
        · rw [if_pos hr]
        · rw [if_neg hr]
          rw [h]
  · have hrows := filterMap_toRow_filter msgs
    unfold addMessagesToIndex
    by_cases hg : !cfg.useRag || col.isNone
    · rw [if_pos hg, if_pos hg]
    · rw [if_neg hg, if_neg hg]
      by_cases hm : msgs.isEmpty
      · have hnil : msgs = [] := List.isEmpty_iff.mp hm
        subst hnil
        rfl
      · rw [if_neg hm]
        by_cases hf : (msgs.filter validForIndex).isEmpty
        · have hfil : msgs.filter validForIndex = [] := List.isEmpty_iff.mp hf
          rw [if_pos hf]
          have hempty : msgs.filterMap toRow = [] := by
            rw [← hrows, hfil]
            rfl
          dsimp only
          rw [if_pos (by rw [hempty]; rfl)]
        · rw [if_neg hf]
          dsimp only
          rw [hrows]

/-- Message batch used by the C4 witness: one valid message. -/
def msgsEx : List PyMsg := [⟨some "user", some "hello", some "f.json", some 0, some "t"⟩]

/-- Witness for C4: with an embedding service that fails, indexing the
concrete batch reports failure and leaves the (empty) collection unchanged,
and filtering out invalid messages does not change the outcome. -/
theorem c4_witness :
    getEmbeddings (fun _ => none) ((msgsEx.filterMap toRow).map IndexRow.doc) = none
    ∧ (addMessagesToIndex cfgEx (some []) (fun _ => none) msgsEx = (false, some [])
       ∧ addMessagesToIndex cfgEx (some []) (fun _ => none) msgsEx
          = addMessagesToIndex cfgEx (some []) (fun _ => none)
              (msgsEx.filter validForIndex)) :=
  ⟨by decide,
   (c4_all_or_nothing cfgEx (some []) (fun _ => none) msgsEx).1 (by decide),
   (c4_all_or_nothing cfgEx (some []) (fun _ => none) msgsEx).2⟩

/-- Claim C10: `add_session_to_history` returns `None` and leaves all state
unchanged — no file written, the sessions map, flat message list and vector
collection unmodified — whenever the session is empty or every message in
it has role `system`; and since system-role messages are filtered out
before persisting, a written session file never contains one. -/
theorem c10_system_filter (cfg : RAGConfig)
    (embed : List String → Option (List (List Int)))
    (parseTime : String → String) (st : HistState) (sessionMsgs : List PyMsg)
    (sfp : Option String) (dp : String) :
    ((sessionMsgs = [] ∨ ∀ m ∈ sessionMsgs, m.role = some "system") →
        addSessionToHistory cfg embed parseTime st sessionMsgs sfp dp
          = (none, st, none))
    ∧ (∀ p written,
        (addSessionToHistory cfg embed parseTime st sessionMsgs sfp dp).2.2
          = some (p, written) →
        ∀ m ∈ written, m.role ≠ some "system") := by
  constructor
  · intro h
    unfold addSessionToHistory
    by_cases hu : !cfg.useRag
    · rw [if_pos hu]
    · rw [if_neg hu]
      rcases h with h | h
      · subst h
        rfl
      · by_cases he : sessionMsgs.isEmpty
        · rw [if_pos he]
        · rw [if_neg he]
          have hfil : sessionMsgs.filter (fun m => m.role != some "system") = [] := by
            rw [List.filter_eq_nil_iff]
            intro m hm
            rw [h m hm]
            simp
          dsimp only
          rw [hfil]
          rfl
  · intro p written hw
    unfold addSessionToHistory at hw
    by_cases hu : !cfg.useRag
    · rw [if_pos hu] at hw
      exact absurd hw (by simp)
    · rw [if_neg hu] at hw
      by_cases he : sessionMsgs.isEmpty
      · rw [if_pos he] at hw
        exact absurd hw (by simp)
      · rw [if_neg he] at hw
        dsimp only at hw
        by_cases hf : (sessionMsgs.filter (fun m => m.role != some "system")).isEmpty
        · rw [if_pos hf] at hw
          exact absurd hw (by simp)
        · rw [if_neg hf] at hw
          simp only [Option.some.injEq, Prod.mk.injEq] at hw
          obtain ⟨_, hwr⟩ := hw
          subst hwr
          intro m hm
          have hmem := List.mem_filter.mp hm
          intro hcontra
          rw [hcontra] at hmem
          simpa using hmem.2

/-- Session used by the C10 witness: a single system-role message. -/
def sysSessionEx : List PyMsg := [⟨some "system", some "be nice", none, none, none⟩]

/-- Witness for C10: saving a session consisting only of a system-role
message returns `None`, writes nothing, and leaves the concrete state
unchanged. -/
theorem c10_witness :
    (sysSessionEx = [] ∨ ∀ m ∈ sysSessionEx, m.role = some "system")
    ∧ addSessionToHistory cfgEx embedEx (fun _ => "t") ⟨[], [], some []⟩
        sysSessionEx none "d/f.json"
        = (none, ⟨[], [], some []⟩, none) :=
  ⟨Or.inr (by decide),
   (c10_system_filter cfgEx embedEx (fun _ => "t") ⟨[], [], some []⟩
       sysSessionEx none "d/f.json").1 (Or.inr (by decide))⟩
